import Mathlib

/-!
Verification development for the word-boundary refiner
(`src/podcast_processor/word_boundary_refiner.py`).

Python floats are modelled as rationals (`ℚ`), Python `None` as `Option`,
transcript segment dicts (with all four fields present and well typed, as the
refiner's callers provide them) as the `Segment` structure, and JSON values as
the inductive `JsonValue`.  The LLM transport is modelled as an input
(`ModelOutcome`): either the response object (content text plus optional
finish reason) or the exception message raised by the invocation; the
best-effort lifecycle writes are modelled as the list of `(status, error)`
updates the orchestrator issues, in order.
-/

/-- Python `str.isspace` characters relevant to `strip()` and regex `\s`
(ASCII: space, tab, newline, carriage return, vertical tab, form feed). -/
def isPySpace (c : Char) : Bool :=
  c = ' ' || c = '\t' || c = '\n' || c = '\r' || c = Char.ofNat 11 || c = Char.ofNat 12

/-- Python `str.strip()` on a character list. -/
def pyStripChars (l : List Char) : List Char :=
  ((l.dropWhile isPySpace).reverse.dropWhile isPySpace).reverse

/-- Python `str.strip()`. -/
def pyStripStr (s : String) : String :=
  String.mk (pyStripChars s.toList)

/-- Python `str.lower()` (ASCII case folding, which covers every string the
refiner compares). -/
def strLower (s : String) : String :=
  String.mk (s.toList.map Char.toLower)

/-- Splitting on runs of whitespace, as `re.split(r"\s+", text)` produces on a
stripped input with empty pieces removed. -/
def splitWsAux : List Char → List Char → List String
  | [], acc => if acc.isEmpty then [] else [String.mk acc.reverse]
  | c :: cs, acc =>
    if isPySpace c then
      if acc.isEmpty then splitWsAux cs []
      else String.mk acc.reverse :: splitWsAux cs []
    else splitWsAux cs (c :: acc)

/-- Characters kept by `_normalize_token` (`[A-Za-z0-9']`). -/
def isWordChar (c : Char) : Bool :=
  c.isAlpha || c.isDigit || c = Char.ofNat 39

/-- `WordBoundaryRefiner._normalize_token`: strip leading/trailing characters
that are not alphanumeric or apostrophe. -/
def normalizeToken (s : String) : String :=
  String.mk (((s.toList.dropWhile (fun c => !isWordChar c)).reverse.dropWhile
    (fun c => !isWordChar c)).reverse)

/-- `WordBoundaryRefiner._split_words`: split on whitespace, normalize each
token, drop tokens that become empty. -/
def splitWords (text : String) : List String :=
  ((splitWsAux (pyStripChars text.toList) []).map normalizeToken).filter (· ≠ "")

/-- A transcript segment dict with its four fields. -/
structure Segment where
  sequence_num : Int
  start_time : ℚ
  end_time : ℚ
  text : String
deriving DecidableEq, Repr

/-- `seq_values` as collected by `_context_by_seq_window`. -/
def seqValues (segs : List Segment) : List Int :=
  segs.map (·.sequence_num)

/-- Python `min` over a nonempty integer list (0 for the empty list, which the
callers exclude). -/
def intListMin : List Int → Int
  | [] => 0
  | x :: xs => xs.foldl min x

/-- Python `max` over a nonempty integer list. -/
def intListMax : List Int → Int
  | [] => 0
  | x :: xs => xs.foldl max x

/-- `WordBoundaryRefiner._context_by_seq_window`. -/
def contextBySeqWindow (all_segments : List Segment)
    (first_seq_num last_seq_num : Option Int) : List Segment :=
  match first_seq_num, last_seq_num with
  | some fv, some lv =>
    if all_segments.isEmpty then []
    else
      let seqs := seqValues all_segments
      let min_seq := intListMin seqs
      let max_seq := intListMax seqs
      let start_seq := max min_seq (fv - 2)
      let end_seq := min max_seq (lv + 2)
      all_segments.filter (fun s =>
        decide (start_seq ≤ s.sequence_num ∧ s.sequence_num ≤ end_seq))
  | _, _ => []

/-- `WordBoundaryRefiner._segment_overlaps`. -/
def segmentOverlaps (s : Segment) (ad_start ad_end : ℚ) : Bool :=
  decide (s.start_time ≤ ad_end ∧ ad_start ≤ s.end_time)

/-- `WordBoundaryRefiner._context_by_time_overlap`. -/
def contextByTimeOverlap (ad_start ad_end : ℚ) (all_segments : List Segment) :
    List Segment :=
  let ad_segs := all_segments.filter (fun s => segmentOverlaps s ad_start ad_end)
  match h : ad_segs with
  | [] => []
  | a :: _ =>
    let lastSeg := ad_segs.getLast (by simp [h])
    let first_idx := all_segments.indexOf a
    let last_idx := all_segments.indexOf lastSeg
    let start_idx := first_idx - 2
    let end_idx := min all_segments.length (last_idx + 3)
    (all_segments.take end_idx).drop start_idx

/-- `WordBoundaryRefiner._get_context`. -/
def getContext (ad_start ad_end : ℚ) (all_segments : List Segment)
    (first_seq_num last_seq_num : Option Int) : List Segment :=
  let selected := contextBySeqWindow all_segments first_seq_num last_seq_num
  if selected.isEmpty then contextByTimeOverlap ad_start ad_end all_segments
  else selected

/-- `MAX_START_EXTENSION_SECONDS`. -/
def MAX_START_EXTENSION_SECONDS : ℚ := 30

/-- `MAX_END_EXTENSION_SECONDS`. -/
def MAX_END_EXTENSION_SECONDS : ℚ := 15

/-- `WordBoundaryRefiner._constrain_start`. -/
def constrainStart (estimated_start orig_start : ℚ) : ℚ :=
  max estimated_start (orig_start - MAX_START_EXTENSION_SECONDS)

/-- `WordBoundaryRefiner._constrain_end`. -/
def constrainEnd (estimated_end orig_end : ℚ) : ℚ :=
  min estimated_end (orig_end + MAX_END_EXTENSION_SECONDS)

/-- The `WordBoundaryRefinement` dataclass. -/
structure WordBoundaryRefinement where
  refined_start : ℚ
  refined_end : ℚ
  start_adjustment_reason : String
  end_adjustment_reason : String
deriving DecidableEq, Repr

/-- `WordBoundaryRefiner._fallback`. -/
def fallback (ad_start ad_end : ℚ) : WordBoundaryRefinement :=
  { refined_start := ad_start
    refined_end := ad_end
    start_adjustment_reason := "heuristic_fallback"
    end_adjustment_reason := "unchanged" }

/-- `WordBoundaryRefiner._parse_failure_reason`. -/
def parseFailureReason (finish_reason : Option String) : String :=
  if strLower (finish_reason.getD "") = "length" then "length" else "format"

/-- `WordBoundaryRefiner._default_reason`. -/
def defaultReason (reason : String) (changed : Bool) : String :=
  if reason ≠ "" then reason
  else if changed then "refined" else "unchanged"

/-- `WordBoundaryRefiner._result_status`. -/
def resultStatus (start_changed end_changed : Bool) (sideErrors : List String) :
    String :=
  if ¬sideErrors.isEmpty ∧ start_changed = false ∧ end_changed = false then
    "success_heuristic"
  else "success"

/-- The opening brace character (as produced by `Char.ofNat` to keep string
literals brace-free). -/
def lbrace : Char := Char.ofNat 123

/-- The closing brace character. -/
def rbrace : Char := Char.ofNat 125

/-- The backtick character. -/
def btick : Char := Char.ofNat 96

/-- Three backticks, the markdown fence marker. -/
def fence3 : List Char := [btick, btick, btick]

/-- A parsed JSON value (numbers as rationals). -/
inductive JsonValue where
  | null : JsonValue
  | bool (b : Bool) : JsonValue
  | num (q : ℚ) : JsonValue
  | str (s : String) : JsonValue
  | arr (xs : List JsonValue) : JsonValue
  | obj (kvs : List (String × JsonValue)) : JsonValue

/-- JSON insignificant whitespace. -/
def isJsonWs (c : Char) : Bool :=
  c = ' ' || c = '\t' || c = '\n' || c = '\r'

/-- Skip JSON whitespace. -/
def skipWsJ (l : List Char) : List Char :=
  l.dropWhile isJsonWs

/-- Value of a hexadecimal digit. -/
def hexVal (c : Char) : Option Nat :=
  if c.isDigit then some (c.toNat - 48)
  else if 'a' ≤ c ∧ c ≤ 'f' then some (c.toNat - 87)
  else if 'A' ≤ c ∧ c ≤ 'F' then some (c.toNat - 55)
  else none

/-- Body of a JSON string (after the opening quote), honouring the escapes
`json.loads` accepts and rejecting unescaped control characters. -/
def parseJStringAux : Nat → List Char → List Char → Option (String × List Char)
  | 0, _, _ => none
  | _ + 1, _, [] => none
  | fuel + 1, acc, c :: rest =>
    if c = '"' then some (String.mk acc.reverse, rest)
    else if c = '\\' then
      match rest with
      | [] => none
      | e :: rest2 =>
        if e = '"' then parseJStringAux fuel ('"' :: acc) rest2
        else if e = '\\' then parseJStringAux fuel ('\\' :: acc) rest2
        else if e = '/' then parseJStringAux fuel ('/' :: acc) rest2
        else if e = 'b' then parseJStringAux fuel (Char.ofNat 8 :: acc) rest2
        else if e = 'f' then parseJStringAux fuel (Char.ofNat 12 :: acc) rest2
        else if e = 'n' then parseJStringAux fuel ('\n' :: acc) rest2
        else if e = 'r' then parseJStringAux fuel ('\r' :: acc) rest2
        else if e = 't' then parseJStringAux fuel ('\t' :: acc) rest2
        else if e = 'u' then
          match rest2 with
          | h1 :: h2 :: h3 :: h4 :: rest3 =>
            match hexVal h1, hexVal h2, hexVal h3, hexVal h4 with
            | some a, some b, some c2, some d =>
              parseJStringAux fuel
                (Char.ofNat (a * 4096 + b * 256 + c2 * 16 + d) :: acc) rest3
            | _, _, _, _ => none
          | _ => none
        else none
    else if c.toNat < 32 then none
    else parseJStringAux fuel (c :: acc) rest

/-- Leading run of decimal digits. -/
def takeDigits (l : List Char) : List Char × List Char :=
  l.span Char.isDigit

/-- Decimal digits to a natural number. -/
def digitsToNat (ds : List Char) : Nat :=
  ds.foldl (fun n c => n * 10 + (c.toNat - 48)) 0

/-- Optional JSON fraction part (must have digits when the dot is present). -/
def parseJFrac : List Char → Option (ℚ × List Char)
  | '.' :: r =>
    match takeDigits r with
    | ([], _) => none
    | (ds, r2) => some ((digitsToNat ds : ℚ) / ((10 : ℚ) ^ ds.length), r2)
  | l => some (0, l)

/-- Optional JSON exponent part, returned as a multiplier. -/
def parseJExp : List Char → Option (ℚ × List Char)
  | [] => some (1, [])
  | c :: r =>
    if c = 'e' ∨ c = 'E' then
      let signed : Int × List Char :=
        match r with
        | '+' :: rr => (1, rr)
        | '-' :: rr => (-1, rr)
        | _ => (1, r)
      match takeDigits signed.2 with
      | ([], _) => none
      | (ds, r2) =>
        let e := digitsToNat ds
        some (if signed.1 = 1 then ((10 : ℚ) ^ e) else 1 / ((10 : ℚ) ^ e), r2)
    else some (1, c :: r)

/-- A JSON number (strict grammar: no leading zeros, mandatory digits). -/
def parseJNumber (l : List Char) : Option (ℚ × List Char) :=
  let signed : Bool × List Char :=
    match l with
    | '-' :: r => (true, r)
    | _ => (false, l)
  match takeDigits signed.2 with
  | ([], _) => none
  | (ds, r1) =>
    if 1 < ds.length ∧ ds.headD ' ' = '0' then none
    else
      match parseJFrac r1 with
      | none => none
      | some (fr, r2) =>
        match parseJExp r2 with
        | none => none
        | some (mult, r3) =>
          let mag := ((digitsToNat ds : ℚ) + fr) * mult
          some (if signed.1 then -mag else mag, r3)

/-- Case-sensitive literal match, returning the remainder. -/
def dropLit : List Char → List Char → Option (List Char)
  | [], l => some l
  | _ :: _, [] => none
  | p :: ps, c :: cs => if c = p then dropLit ps cs else none

/-- The pending work items of the recursive-descent JSON parser: a value, the
inside of an array (just opened, or mid-list with accumulated elements), or
the inside of an object. -/
inductive PTask where
  | val (l : List Char) : PTask
  | elemsStart (l : List Char) : PTask
  | elems (l : List Char) (acc : List JsonValue) : PTask
  | membersStart (l : List Char) : PTask
  | members (l : List Char) (acc : List (String × JsonValue)) : PTask

/-- Recursive-descent JSON parsing modelling `json.loads` (fuel bounds the
recursion; one unit of fuel is spent per nested value or list item, and each
such step consumes input, so `length + 1` fuel always suffices). -/
def parseRun : Nat → PTask → Option (JsonValue × List Char)
  | 0, _ => none
  | fuel + 1, PTask.val l =>
    match skipWsJ l with
    | [] => none
    | c :: rest =>
      if c = '"' then
        match parseJStringAux (rest.length + 1) [] rest with
        | some (s, r) => some (JsonValue.str s, r)
        | none => none
      else if c = lbrace then parseRun fuel (PTask.membersStart rest)
      else if c = '[' then parseRun fuel (PTask.elemsStart rest)
      else if c = 't' then
        match dropLit ['r', 'u', 'e'] rest with
        | some r => some (JsonValue.bool true, r)
        | none => none
      else if c = 'f' then
        match dropLit ['a', 'l', 's', 'e'] rest with
        | some r => some (JsonValue.bool false, r)
        | none => none
      else if c = 'n' then
        match dropLit ['u', 'l', 'l'] rest with
        | some r => some (JsonValue.null, r)
        | none => none
      else
        match parseJNumber (c :: rest) with
        | some (q, r) => some (JsonValue.num q, r)
        | none => none
  | fuel + 1, PTask.elemsStart l =>
    match skipWsJ l with
    | [] => none
    | c :: rest =>
      if c = ']' then some (JsonValue.arr [], rest)
      else parseRun fuel (PTask.elems l [])
  | fuel + 1, PTask.elems l acc =>
    match parseRun fuel (PTask.val l) with
    | none => none
    | some (v, r) =>
      match skipWsJ r with
      | [] => none
      | c :: r2 =>
        if c = ']' then some (JsonValue.arr (v :: acc).reverse, r2)
        else if c = ',' then parseRun fuel (PTask.elems r2 (v :: acc))
        else none
  | fuel + 1, PTask.membersStart l =>
    match skipWsJ l with
    | [] => none
    | c :: _ =>
      if c = rbrace then some (JsonValue.obj [], (skipWsJ l).drop 1)
      else parseRun fuel (PTask.members l [])
  | fuel + 1, PTask.members l acc =>
    match skipWsJ l with
    | [] => none
    | c :: rest =>
      if c = '"' then
        match parseJStringAux (rest.length + 1) [] rest with
        | none => none
        | some (k, r) =>
          match skipWsJ r with
          | ':' :: r2 =>
            match parseRun fuel (PTask.val r2) with
            | none => none
            | some (v, r3) =>
              match skipWsJ r3 with
              | [] => none
              | d :: r4 =>
                if d = rbrace then
                  some (JsonValue.obj ((k, v) :: acc).reverse, r4)
                else if d = ',' then parseRun fuel (PTask.members r4 ((k, v) :: acc))
                else none
          | _ => none
      else none

/-- Top-level JSON value parsing. -/
def parseVal (fuel : Nat) (l : List Char) : Option (JsonValue × List Char) :=
  parseRun fuel (PTask.val l)

/-- `json.loads` restricted to the use in `_parse_json_candidate`: the whole
text must parse, and only a dict is kept. -/
def jsonLoadsDict (s : String) : Option (List (String × JsonValue)) :=
  match parseVal (s.toList.length + 1) s.toList with
  | some (JsonValue.obj kvs, rest) => if skipWsJ rest = [] then some kvs else none
  | _ => none

/-- Case-sensitive test that `pat` starts the list. -/
def startsWithL : List Char → List Char → Bool
  | [], _ => true
  | _ :: _, [] => false
  | p :: ps, c :: cs => c = p && startsWithL ps cs

/-- ASCII case-insensitive test that `pat` starts the list. -/
def startsWithCI : List Char → List Char → Bool
  | [], _ => true
  | _ :: _, [] => false
  | p :: ps, c :: cs => c.toLower = p.toLower && startsWithCI ps cs

/-- Leftmost index at which the pattern occurs (`str.find` / regex scan). -/
def findSeqIdx (pat : List Char) : List Char → Option Nat
  | [] => if pat.isEmpty then some 0 else none
  | c :: cs =>
    if startsWithL pat (c :: cs) then some 0
    else (findSeqIdx pat cs).map (· + 1)

/-- `re.finditer` over the fenced-block pattern (triple backtick, optional
case-insensitive `json` tag, whitespace, lazily captured content, closing
fence), each captured block stripped and kept when nonempty. -/
def fencedBlocksAux : Nat → List Char → List String
  | 0, _ => []
  | fuel + 1, l =>
    match findSeqIdx fence3 l with
    | none => []
    | some i =>
      let after := l.drop (i + 3)
      let afterTag := if startsWithCI ['j', 's', 'o', 'n'] after then after.drop 4 else after
      match findSeqIdx fence3 afterTag with
      | none => []
      | some c =>
        let content := pyStripChars (afterTag.take c)
        let restL := afterTag.drop (c + 3)
        (if content.isEmpty then [] else [String.mk content]) ++ fencedBlocksAux fuel restL

/-- `re.sub` removing every fence marker (the `json`-tagged alternative is
preferred at each position, matching the regex alternation). -/
def stripFencesAux : Nat → List Char → List Char
  | 0, l => l
  | _ + 1, [] => []
  | fuel + 1, c :: cs =>
    if startsWithL fence3 (c :: cs) then
      if startsWithCI ['j', 's', 'o', 'n'] (cs.drop 2) then
        stripFencesAux fuel ((c :: cs).drop 7)
      else stripFencesAux fuel ((c :: cs).drop 3)
    else c :: stripFencesAux fuel cs

/-- `re.sub` of the fence pattern on a string. -/
def stripFences (s : String) : String :=
  String.mk (stripFencesAux (s.toList.length + 1) s.toList)

/-- The bracket-depth scanner of `_extract_json_objects`: walks the text
tracking depth and in-string/escape state; while a top-level object is open
its characters accumulate in `buf`, and matching closers emit the slice. -/
def extractObjsAux : List Char → Nat → Bool → Bool → Option (List Char) →
    List (List Char) → List (List Char)
  | [], _, _, _, _, out => out.reverse
  | c :: cs, depth, inStr, esc, buf, out =>
    if inStr then
      let buf2 := buf.map (c :: ·)
      if esc then extractObjsAux cs depth true false buf2 out
      else if c = '\\' then extractObjsAux cs depth true true buf2 out
      else if c = '"' then extractObjsAux cs depth false false buf2 out
      else extractObjsAux cs depth true false buf2 out
    else if c = '"' then extractObjsAux cs depth true false (buf.map (c :: ·)) out
    else if c = lbrace then
      let buf2 := if depth = 0 then some [c] else buf.map (c :: ·)
      extractObjsAux cs (depth + 1) false false buf2 out
    else if c = rbrace ∧ 0 < depth then
      let buf2 := buf.map (c :: ·)
      if depth = 1 then
        match buf2 with
        | some b => extractObjsAux cs 0 false false none (b.reverse :: out)
        | none => extractObjsAux cs 0 false false none out
      else extractObjsAux cs (depth - 1) false false buf2 out
    else extractObjsAux cs depth false false (buf.map (c :: ·)) out

/-- `WordBoundaryRefiner._extract_json_objects`. -/
def extractJsonObjects (s : String) : List String :=
  (extractObjsAux s.toList 0 false false none []).map String.mk

/-- `WordBoundaryRefiner._dedupe_preserve_order`. -/
def dedupeAux : List String → List String → List String
  | [], _ => []
  | v :: vs, seen =>
    let normalized := pyStripStr v
    if normalized = "" ∨ normalized ∈ seen then dedupeAux vs seen
    else normalized :: dedupeAux vs (normalized :: seen)

/-- `WordBoundaryRefiner._json_parse_candidates`. -/
def jsonParseCandidates (content : String) : List String :=
  let text := pyStripStr content
  if text = "" then []
  else
    let fenced := fencedBlocksAux (text.toList.length + 1) text.toList
    let unfenced := pyStripStr (stripFences text)
    let candidates := [text] ++ fenced ++ (if unfenced ≠ "" then [unfenced] else [])
    let expanded := candidates.foldr (fun c acc => (c :: extractJsonObjects c) ++ acc) []
    dedupeAux expanded []

/-- `str.rstrip(",")`. -/
def rstripCommas (l : List Char) : List Char :=
  (l.reverse.dropWhile (· = ',')).reverse

/-- Leftmost index whose suffix satisfies the end-anchored pattern. -/
def findSuffixIdx (p : List Char → Bool) : List Char → Option Nat
  | [] => none
  | c :: cs =>
    if p (c :: cs) then some 0
    else (findSuffixIdx p cs).map (· + 1)

/-- `re.sub` of an end-anchored pattern: delete the leftmost matching suffix. -/
def removeSuffixPat (p : List Char → Bool) (l : List Char) : List Char :=
  match findSuffixIdx p l with
  | none => l
  | some i => l.take i

/-- Suffix pattern for a dangling quoted key with no closing quote. -/
def patDanglingQuote : List Char → Bool
  | ',' :: r =>
    match r.dropWhile isPySpace with
    | '"' :: t => t.all (· ≠ '"')
    | _ => false
  | _ => false

/-- Suffix pattern for a trailing lone quoted string. -/
def patLoneQuoted : List Char → Bool
  | ',' :: r =>
    match r.dropWhile isPySpace with
    | '"' :: t =>
      match t.span (· ≠ '"') with
      | (_, '"' :: u) => u.isEmpty
      | _ => false
    | _ => false
  | _ => false

/-- Suffix pattern for a quoted key followed by a colon and nothing. -/
def patKeyColon : List Char → Bool
  | ',' :: r =>
    match r.dropWhile isPySpace with
    | '"' :: t =>
      match t.span (· ≠ '"') with
      | (_, '"' :: u) =>
        match u.dropWhile isPySpace with
        | ':' :: v => v.all isPySpace
        | _ => false
      | _ => false
    | _ => false
  | _ => false

/-- Suffix pattern for a quoted key, colon, and an unterminated string value. -/
def patKeyColonOpenStr : List Char → Bool
  | ',' :: r =>
    match r.dropWhile isPySpace with
    | '"' :: t =>
      match t.span (· ≠ '"') with
      | (_, '"' :: u) =>
        match u.dropWhile isPySpace with
        | ':' :: v =>
          match v.dropWhile isPySpace with
          | '"' :: w => w.all (· ≠ '"')
          | _ => false
        | _ => false
      | _ => false
    | _ => false
  | _ => false

/-- `WordBoundaryRefiner._repair_truncated_json`. -/
def repairTruncatedJson (candidate : String) : Option String :=
  let text := pyStripChars candidate.toList
  if text.isEmpty then none
  else
    match findSeqIdx [lbrace] text with
    | none => none
    | some i =>
      let r0 := text.drop i
      let r1 := pyStripChars (stripFencesAux (r0.length + 1) r0)
      let r2 := rstripCommas r1
      let r3 := removeSuffixPat patDanglingQuote r2
      let r4 := removeSuffixPat patLoneQuoted r3
      let r5 := removeSuffixPat patKeyColon r4
      let r6 := removeSuffixPat patKeyColonOpenStr r5
      let r7 := r6 ++ List.replicate (r6.count '[' - r6.count ']') ']'
      let r8 := r7 ++ List.replicate (r7.count lbrace - r7.count rbrace) rbrace
      if r8.isEmpty then none else some (String.mk r8)

/-- `WordBoundaryRefiner._parse_json_candidate`: strict parse, then one retry
on the truncation-repaired text when it differs. -/
def parseJsonCandidate (candidate : String) : Option (List (String × JsonValue)) :=
  match jsonLoadsDict candidate with
  | some d => some d
  | none =>
    match repairTruncatedJson candidate with
    | some repaired => if repaired ≠ candidate then jsonLoadsDict repaired else none
    | none => none

/-- ASCII case-insensitive prefix consumption. -/
def dropCIPre : List Char → List Char → Option (List Char)
  | [], l => some l
  | _ :: _, [] => none
  | p :: ps, c :: cs => if c.toLower = p.toLower then dropCIPre ps cs else none

/-- Left-to-right regex-style scan: first position where the matcher fires. -/
def scanFor {α : Type} (m : List Char → Option α) : List Char → Option α
  | [] => none
  | c :: cs =>
    match m (c :: cs) with
    | some v => some v
    | none => scanFor m cs

/-- Matcher at one position for the pattern
quote, key (case-insensitive), quote, `\s*`, colon, `\s*`, then `null` or an
optionally signed digit run — with the `null` alternative preferred, as in the
regex of `_extract_int_or_null`.  `some none` means the `null` branch. -/
def matchKeyIntAt (key : List Char) (l : List Char) : Option (Option Int) :=
  match l with
  | '"' :: r =>
    match dropCIPre key r with
    | none => none
    | some r1 =>
      match r1 with
      | '"' :: r2 =>
        match (r2.dropWhile isPySpace) with
        | ':' :: r4 =>
          let r5 := r4.dropWhile isPySpace
          if startsWithCI ['n', 'u', 'l', 'l'] r5 then some none
          else
            let signed : Bool × List Char :=
              match r5 with
              | '-' :: rr => (true, rr)
              | _ => (false, r5)
            match takeDigits signed.2 with
            | ([], _) => none
            | (ds, _) =>
              some (some ((if signed.1 then -1 else 1) * (digitsToNat ds : Int)))
        | _ => none
      | _ => none
  | _ => none

/-- Matcher for the `null`-only presence regex used by
`_parse_partial_json_fields`. -/
def matchKeyNullAt (key : List Char) (l : List Char) : Option Unit :=
  match l with
  | '"' :: r =>
    match dropCIPre key r with
    | none => none
    | some r1 =>
      match r1 with
      | '"' :: r2 =>
        match (r2.dropWhile isPySpace) with
        | ':' :: r4 =>
          if startsWithCI ['n', 'u', 'l', 'l'] (r4.dropWhile isPySpace) then some ()
          else none
        | _ => none
      | _ => none
  | _ => none

/-- Matcher for the quoted-string field regex of `_extract_string`. -/
def matchKeyStrAt (key : List Char) (l : List Char) : Option String :=
  match l with
  | '"' :: r =>
    match dropCIPre key r with
    | none => none
    | some r1 =>
      match r1 with
      | '"' :: r2 =>
        match (r2.dropWhile isPySpace) with
        | ':' :: r4 =>
          match r4.dropWhile isPySpace with
          | '"' :: r6 =>
            match r6.span (· ≠ '"') with
            | (body, '"' :: _) => some (String.mk body)
            | _ => none
          | _ => none
        | _ => none
      | _ => none
  | _ => none

/-- `_extract_int_or_null` before the Python-side collapse: `none` is no
match, `some none` an explicit `null`, `some (some n)` an integer. -/
def extractIntOrNull (key : String) (text : List Char) : Option (Option Int) :=
  scanFor (matchKeyIntAt key.toList) text

/-- The `null`-presence search in `_parse_partial_json_fields`. -/
def hasNullFor (key : String) (text : List Char) : Bool :=
  (scanFor (matchKeyNullAt key.toList) text).isSome

/-- `_extract_string`: matched value stripped, empty collapsed to absent. -/
def extractStringField (key : String) (text : List Char) : Option String :=
  match scanFor (matchKeyStrAt key.toList) text with
  | none => none
  | some s =>
    let v := pyStripStr s
    if v = "" then none else some v

/-- One sequence-field entry of `_parse_partial_json_fields`: an integer match
is stored as a number; otherwise the key is stored as `null` exactly when the
`null`-presence regex fires. -/
def seqEntry (key : String) (text : List Char) : List (String × JsonValue) :=
  match extractIntOrNull key text with
  | some (some n) => [(key, JsonValue.num (n : ℚ))]
  | _ => if hasNullFor key text then [(key, JsonValue.null)] else []

/-- One string-field entry of `_parse_partial_json_fields`. -/
def strEntry (key : String) (text : List Char) : List (String × JsonValue) :=
  match extractStringField key text with
  | some v => [(key, JsonValue.str v)]
  | none => []

/-- `WordBoundaryRefiner._parse_partial_json_fields`. -/
def parsePartialJsonFields (content : String) : List (String × JsonValue) :=
  let text := content.toList
  seqEntry "refined_start_segment_seq" text ++
  seqEntry "refined_end_segment_seq" text ++
  strEntry "refined_start_phrase" text ++
  strEntry "refined_end_phrase" text ++
  strEntry "start_adjustment_reason" text ++
  strEntry "end_adjustment_reason" text

/-- First candidate that parses, as the loop in `_parse_json`. -/
def firstParsed : List String → Option (List (String × JsonValue))
  | [] => none
  | c :: cs =>
    match parseJsonCandidate c with
    | some d => some d
    | none => firstParsed cs

/-- `WordBoundaryRefiner._parse_json`. -/
def parseJson (content : String) : Option (List (String × JsonValue)) :=
  match firstParsed (jsonParseCandidates content) with
  | some d => some d
  | none =>
    let fields := parsePartialJsonFields content
    if fields.isEmpty then none else some fields

/-- Python `dict` lookup (`k in d` / `d[k]`): later duplicate keys win, as
`json.loads` keeps the last binding. -/
def dictGet (kvs : List (String × JsonValue)) (k : String) : Option JsonValue :=
  (kvs.filter (fun kv => kv.1 = k)).getLast?.map (·.2)

/-- Python `dict.get(k)`: a JSON `null` value is the Python object `None`, so
an absent key and a `null` value are indistinguishable to the caller. -/
def pyGet (kvs : List (String × JsonValue)) (k : String) : Option JsonValue :=
  match dictGet kvs k with
  | some JsonValue.null => none
  | some v => some v
  | none => none

/-- Python truthiness of a loaded JSON value. -/
def pyTruthy : JsonValue → Bool
  | JsonValue.null => false
  | JsonValue.bool b => b
  | JsonValue.num q => q ≠ 0
  | JsonValue.str s => s ≠ ""
  | JsonValue.arr xs => ¬xs.isEmpty
  | JsonValue.obj kvs => ¬kvs.isEmpty

/-- Python `str()` of a loaded JSON value (containers rendered opaquely; the
refiner only ever compares or tokenizes strings and scalars). -/
def jsonStr : JsonValue → String
  | JsonValue.null => "None"
  | JsonValue.bool b => if b then "True" else "False"
  | JsonValue.num q =>
    if q.den = 1 then toString q.num
    else toString q.num ++ "/" ++ toString q.den
  | JsonValue.str s => s
  | JsonValue.arr _ => "[...]"
  | JsonValue.obj _ => "[obj]"

/-- Python `str(v or "")` over an optional value. -/
def pyStrOr (v : Option JsonValue) : String :=
  match v with
  | none => ""
  | some j => if pyTruthy j then jsonStr j else ""

/-- `WordBoundaryRefiner._has_text`. -/
def hasText (v : Option JsonValue) : Bool :=
  match v with
  | none => false
  | some j => pyStripStr (jsonStr j) ≠ ""

/-- Python `int(x)` over a loaded JSON value (`none` when `int` raises). -/
def pyToInt : JsonValue → Option Int
  | JsonValue.null => none
  | JsonValue.bool b => some (if b then 1 else 0)
  | JsonValue.num q => some (if 0 ≤ q then q.floor else q.ceil)
  | JsonValue.str s =>
    let t := pyStripChars s.toList
    let signed : Bool × List Char :=
      match t with
      | '-' :: rr => (true, rr)
      | '+' :: rr => (false, rr)
      | _ => (false, t)
    match takeDigits signed.2 with
    | ([], _) => none
    | (ds, rest) =>
      if rest.isEmpty then
        some ((if signed.1 then -1 else 1) * (digitsToNat ds : Int))
      else none
  | JsonValue.arr _ => none
  | JsonValue.obj _ => none

/-- `int(segment_seq)` guarded by the `None` check and `try/except`. -/
def optToInt (v : Option JsonValue) : Option Int :=
  match v with
  | none => none
  | some j => pyToInt j

/-- The payload dict assembled by `WordBoundaryRefiner._extract_payload`
(with the `occurance` alias applied for the occurrence hint). -/
structure RefinementPayload where
  start_segment_seq : Option JsonValue
  start_phrase : Option JsonValue
  end_segment_seq : Option JsonValue
  end_phrase : Option JsonValue
  start_word : Option JsonValue
  start_occurrence : Option JsonValue
  start_word_index : Option JsonValue
  start_reason : String
  end_reason : String

/-- `WordBoundaryRefiner._extract_payload`. -/
def extractPayload (parsed : List (String × JsonValue)) : RefinementPayload :=
  let occurrence :=
    match pyGet parsed "occurrence" with
    | none => pyGet parsed "occurance"
    | some v => some v
  { start_segment_seq := pyGet parsed "refined_start_segment_seq"
    start_phrase := pyGet parsed "refined_start_phrase"
    end_segment_seq := pyGet parsed "refined_end_segment_seq"
    end_phrase := pyGet parsed "refined_end_phrase"
    start_word := pyGet parsed "refined_start_word"
    start_occurrence := occurrence
    start_word_index := pyGet parsed "refined_start_word_index"
    start_reason := pyStrOr (pyGet parsed "start_adjustment_reason")
    end_reason := pyStrOr (pyGet parsed "end_adjustment_reason") }

/-- `WordBoundaryRefiner._find_segment`. -/
def findSegment (all_segments : List Segment) (segment_seq : Option JsonValue) :
    Option Segment :=
  match optToInt segment_seq with
  | none => none
  | some n => all_segments.find? (fun s => s.sequence_num = n)

/-- Stable insertion by sequence number (Python's stable `list.sort` with the
sequence-number key yields the same list). -/
def insertBySeq (s : Segment) : List Segment → List Segment
  | [] => [s]
  | t :: ts =>
    if t.sequence_num ≤ s.sequence_num then t :: insertBySeq s ts
    else s :: t :: ts

/-- Stable sort of the context segments by sequence number. -/
def sortBySeq : List Segment → List Segment
  | [] => []
  | s :: ss => insertBySeq s (sortBySeq ss)

/-- The proposition that `target` occurs contiguously at index `i` of `words`
(`words[i : i + len(target)] == target`). -/
def occursAt (words target : List String) (i : Nat) : Prop :=
  (words.drop i).take target.length = target

instance occursAtDecidable (words target : List String) (i : Nat) :
    Decidable (occursAt words target i) := by
  unfold occursAt
  infer_instance

/-- `WordBoundaryRefiner._find_subsequence`. -/
def findSubsequence (words target : List String) (choose : String) :
    Option (Nat × Nat) :=
  if target.isEmpty ∨ words.length < target.length then none
  else if choose = "last" then
    (((List.range (words.length - target.length + 1)).filter
      (fun i => decide (occursAt words target i))).map
      (fun i => (i, i + target.length - 1))).getLast?
  else
    (((List.range (words.length - target.length + 1)).filter
      (fun i => decide (occursAt words target i))).map
      (fun i => (i, i + target.length - 1))).head?

/-- Python `l[-n:]`. -/
def takeLast {α : Type} (l : List α) (n : Nat) : List α :=
  l.drop (l.length - n)

/-- The `start`-direction countdown over run lengths in `_find_phrase_match`. -/
def matchStartRuns (words base : List String) : Nat → Option (Nat × Nat)
  | 0 => none
  | k + 1 =>
    match findSubsequence words (base.take (k + 1)) "first" with
    | some m => some m
    | none => matchStartRuns words base k

/-- The `end`-direction countdown over run lengths in `_find_phrase_match`. -/
def matchEndRuns (words base : List String) : Nat → Option (Nat × Nat)
  | 0 => none
  | k + 1 =>
    match findSubsequence words (takeLast base (k + 1)) "last" with
    | some m => some m
    | none => matchEndRuns words base k

/-- `WordBoundaryRefiner._find_phrase_match`. -/
def findPhraseMatch (words phrase_tokens : List String) (direction : String)
    (max_words : Nat) : Option (Nat × Nat) :=
  if words.isEmpty ∨ phrase_tokens.isEmpty then none
  else if direction = "start" then
    let base := phrase_tokens.take max_words
    matchStartRuns words base base.length
  else
    let base := takeLast phrase_tokens max_words
    matchEndRuns words base base.length

/-- Lower-cased normalized tokens of a segment's text, as computed inside the
candidate loop of `_estimate_phrase_time`. -/
def segWords (seg : Segment) : List String :=
  (splitWords seg.text).map strLower

/-- The per-match time estimate of `_estimate_phrase_time` (constant seconds
per word, clamped to the segment end). -/
def phraseEstimate (seg : Segment) (direction : String) (i j wordCount : Nat) : ℚ :=
  if direction = "start" then
    min (seg.start_time +
      (i : ℚ) * (max 0 (seg.end_time - seg.start_time) / (wordCount : ℚ)))
      seg.end_time
  else
    min (seg.start_time +
      ((j : ℚ) + 1) * (max 0 (seg.end_time - seg.start_time) / (wordCount : ℚ)))
      seg.end_time

/-- The candidate loop of `_estimate_phrase_time`: first segment with tokens
and positive duration that yields a phrase match produces the estimate. -/
def searchCandidates (phrase_tokens : List String) (direction : String) :
    List Segment → Option ℚ
  | [] => none
  | seg :: rest =>
    let words := segWords seg
    let duration := max 0 (seg.end_time - seg.start_time)
    if words.isEmpty ∨ duration ≤ 0 then searchCandidates phrase_tokens direction rest
    else
      match findPhraseMatch words phrase_tokens direction 4 with
      | none => searchCandidates phrase_tokens direction rest
      | some (i, j) => some (phraseEstimate seg direction i j words.length)

/-- `WordBoundaryRefiner._estimate_phrase_time`. -/
def estimatePhraseTime (all_segments context_segments : List Segment)
    (preferred_segment_seq phrase : Option JsonValue) (direction : String) :
    Option ℚ :=
  let phrase_tokens := (splitWords (pyStrOr phrase)).map strLower
  if phrase_tokens.isEmpty then none
  else
    let preferred_seg := findSegment all_segments preferred_segment_seq
    let sorted := sortBySeq context_segments
    let ordered_context := if direction = "end" then sorted.reverse else sorted
    let preferred_seq_int := optToInt preferred_segment_seq
    let others :=
      match preferred_seq_int with
      | none => ordered_context
      | some n => ordered_context.filter (fun s => s.sequence_num ≠ n)
    let candidates :=
      (match preferred_seg with
       | none => []
       | some s => [s]) ++ others
    searchCandidates phrase_tokens direction candidates

/-- `WordBoundaryRefiner._estimate_segment_boundary_time`. -/
def estimateSegmentBoundaryTime (all_segments : List Segment)
    (segment_seq : Option JsonValue) (boundary : String) : Option ℚ :=
  match findSegment all_segments segment_seq with
  | none => none
  | some seg => some (if boundary = "end" then seg.end_time else seg.start_time)

/-- `WordBoundaryRefiner._resolve_word_index`. -/
def resolveWordIndex (words : List String) (word occurrence word_index : Option JsonValue) :
    Nat :=
  let target_raw :=
    match word with
    | none => ""
    | some j => pyStripStr (jsonStr j)
  let target := strLower (normalizeToken target_raw)
  let match_indexes :=
    (List.range words.length).filter
      (fun i => strLower (words.getD i "") = target)
  if target ≠ "" ∧ ¬match_indexes.isEmpty then
    let occ :=
      match occurrence with
      | none => ""
      | some j => strLower (pyStripStr (jsonStr j))
    if occ = "last" then match_indexes.getLastD 0 else match_indexes.headD 0
  else
    let idx_int := (optToInt word_index).getD 0
    (max 0 (min idx_int ((words.length : Int) - 1))).toNat

/-- `WordBoundaryRefiner._estimate_word_time`. -/
def estimateWordTime (all_segments : List Segment)
    (segment_seq word occurrence word_index : Option JsonValue) : ℚ :=
  match findSegment all_segments segment_seq with
  | none =>
    match all_segments with
    | [] => 0
    | s :: _ => s.start_time
  | some seg =>
    let start_time := seg.start_time
    let end_time := seg.end_time
    let duration := max 0 (end_time - start_time)
    let words := splitWords seg.text
    if words.isEmpty ∨ duration ≤ 0 then start_time
    else
      let resolved_index := resolveWordIndex words word occurrence word_index
      let seconds_per_word := duration / (words.length : ℚ)
      min (start_time + (resolved_index : ℚ) * seconds_per_word) end_time

/-- `WordBoundaryRefiner._refine_start`: `(time, changed, reason, error)`. -/
def refineStart (ad_start : ℚ) (all_segments context_segments : List Segment)
    (start_segment_seq start_phrase start_word start_occurrence start_word_index :
      Option JsonValue)
    (start_reason : String) : ℚ × Bool × String × Option String :=
  if hasText start_phrase then
    match estimatePhraseTime all_segments context_segments start_segment_seq
        start_phrase "start" with
    | none => (ad_start, false, start_reason, some "start_phrase_not_found")
    | some estimated_start =>
      (constrainStart estimated_start ad_start, true, start_reason, none)
  else
    match estimateSegmentBoundaryTime all_segments start_segment_seq "start" with
    | some segment_start =>
      let constrained := constrainStart segment_start ad_start
      (constrained, decide (constrained ≠ ad_start), start_reason, none)
    | none =>
      if hasText start_word ∨ start_word_index.isSome then
        let estimated_start := estimateWordTime all_segments start_segment_seq
          start_word start_occurrence start_word_index
        (constrainStart estimated_start ad_start, true, start_reason, none)
      else
        (ad_start, false, (if start_reason = "" then "unchanged" else start_reason), none)

/-- `WordBoundaryRefiner._refine_end`: `(time, changed, reason, error)`. -/
def refineEnd (ad_end : ℚ) (all_segments context_segments : List Segment)
    (end_segment_seq end_phrase : Option JsonValue) (end_reason : String) :
    ℚ × Bool × String × Option String :=
  if ¬hasText end_phrase then
    match estimateSegmentBoundaryTime all_segments end_segment_seq "end" with
    | some segment_end =>
      let constrained := constrainEnd segment_end ad_end
      (constrained, decide (constrained ≠ ad_end),
        (if end_reason = "" then "refined" else end_reason), none)
    | none =>
      (ad_end, false, (if end_reason = "" then "unchanged" else end_reason), none)
  else
    match estimatePhraseTime all_segments context_segments end_segment_seq
        end_phrase "end" with
    | none => (ad_end, false, end_reason, some "end_phrase_not_found")
    | some estimated_end =>
      (constrainEnd estimated_end ad_end, true, end_reason, none)

/-- The first-choice data the orchestrator reads off a litellm response. -/
structure ModelResponse where
  content : String
  finish_reason : Option String
deriving DecidableEq, Repr

/-- Outcome of the model invocation: a response, or the exception message
raised by the transport (network/auth/timeout). -/
inductive ModelOutcome where
  | ok (resp : ModelResponse) : ModelOutcome
  | err (msg : String) : ModelOutcome
deriving DecidableEq, Repr

/-- One best-effort lifecycle write (`_update_model_call` invocation). -/
structure StatusUpdate where
  status : String
  error_message : Option String
deriving DecidableEq, Repr

/-- The non-fallback result record built at the end of `refine`'s success
path, from a parsed payload dict. -/
def refinedRecord (ad_start ad_end : ℚ) (all_segments context : List Segment)
    (parsed : List (String × JsonValue)) : WordBoundaryRefinement :=
  let payload := extractPayload parsed
  let sres := refineStart ad_start all_segments context payload.start_segment_seq
    payload.start_phrase payload.start_word payload.start_occurrence
    payload.start_word_index payload.start_reason
  let eres := refineEnd ad_end all_segments context payload.end_segment_seq
    payload.end_phrase payload.end_reason
  { refined_start := sres.1
    refined_end := eres.1
    start_adjustment_reason := defaultReason sres.2.2.1 sres.2.1
    end_adjustment_reason := defaultReason eres.2.2.1 eres.2.1 }

/-- `WordBoundaryRefiner.refine`, with the model invocation supplied as an
input and the lifecycle writes returned alongside the result, in order.  The
Python body wraps everything after the prompt upsert in `try/except`, so an
exception raised by the transport (the `err` case) resolves to the fallback
and a `failed_permanent` write; all post-response computation is total. -/
def refinePair (outcome : ModelOutcome) (ad_start ad_end : ℚ)
    (all_segments : List Segment) (first_seq_num last_seq_num : Option Int) :
    WordBoundaryRefinement × List StatusUpdate :=
  let context := getContext ad_start ad_end all_segments first_seq_num last_seq_num
  match outcome with
  | ModelOutcome.err msg =>
    (fallback ad_start ad_end, [{ status := "failed_permanent", error_message := some msg }])
  | ModelOutcome.ok resp =>
    let received : StatusUpdate := { status := "received_response", error_message := none }
    match parseJson resp.content with
    | none =>
      (fallback ad_start ad_end,
        [received,
         { status := "success_heuristic"
           error_message := some ("parse_failed:" ++ parseFailureReason resp.finish_reason) }])
    | some parsed =>
      let payload := extractPayload parsed
      let sres := refineStart ad_start all_segments context payload.start_segment_seq
        payload.start_phrase payload.start_word payload.start_occurrence
        payload.start_word_index payload.start_reason
      let eres := refineEnd ad_end all_segments context payload.end_segment_seq
        payload.end_phrase payload.end_reason
      let sideErrors := [sres.2.2.2, eres.2.2.2].filterMap id
      let start_reason := defaultReason sres.2.2.1 sres.2.1
      let end_reason := defaultReason eres.2.2.1 eres.2.1
      if eres.1 ≤ sres.1 then
        (fallback ad_start ad_end,
          [received,
           { status := "success_heuristic", error_message := some "invalid_refined_window" }])
      else
        ({ refined_start := sres.1
           refined_end := eres.1
           start_adjustment_reason := start_reason
           end_adjustment_reason := end_reason },
          [received,
           { status := resultStatus sres.2.1 eres.2.1 sideErrors
             error_message :=
               if sideErrors.isEmpty then none
               else some (String.intercalate "," sideErrors) },
           { status := "success", error_message := none }])

/-- The `WordBoundaryRefinement` returned to the caller. -/
def refineResult (outcome : ModelOutcome) (ad_start ad_end : ℚ)
    (all_segments : List Segment) (first_seq_num last_seq_num : Option Int) :
    WordBoundaryRefinement :=
  (refinePair outcome ad_start ad_end all_segments first_seq_num last_seq_num).1

/-- The sequence of lifecycle status writes issued during `refine` (after the
initial record upsert). -/
def refineUpdates (outcome : ModelOutcome) (ad_start ad_end : ℚ)
    (all_segments : List Segment) (first_seq_num last_seq_num : Option Int) :
    List StatusUpdate :=
  (refinePair outcome ad_start ad_end all_segments first_seq_num last_seq_num).2

/-- The truncated model output of the repair test. -/
def c7text : String := "\x7b\"refined_start_segment_seq\": 288, \"refined_start_phrase"

/-- A one-segment transcript (the fallback test's segment). -/
def c2segs : List Segment :=
  [{ sequence_num := 1, start_time := 10, end_time := 12,
     text := "This episode is brought to you by" }]

/-- A parsed response whose start phrase occurs nowhere in the transcript:
the start estimation reports a partial error and neither side changes. -/
def c2outcome : ModelOutcome :=
  ModelOutcome.ok
    { content := "\x7b\"refined_start_phrase\": \"zebra\"\x7d"
      finish_reason := some "stop" }

/-- One hundred segments with sequence numbers `0..99`. -/
def segs100 : List Segment :=
  (List.range 100).map (fun k =>
    { sequence_num := (k : Int), start_time := (k : ℚ), end_time := (k : ℚ) + 1,
      text := "Segment" })

/-- The argument tuple of `refineStart`. -/
def RefineStartArgs : Type :=
  ℚ × List Segment × List Segment × Option JsonValue × Option JsonValue ×
    Option JsonValue × Option JsonValue × Option JsonValue × String

/-- `refineStart` over its argument tuple. -/
def refineStartT (t : RefineStartArgs) : ℚ × Bool × String × Option String :=
  refineStart t.1 t.2.1 t.2.2.1 t.2.2.2.1 t.2.2.2.2.1 t.2.2.2.2.2.1
    t.2.2.2.2.2.2.1 t.2.2.2.2.2.2.2.1 t.2.2.2.2.2.2.2.2

/-- The argument tuple of `refineEnd`. -/
def RefineEndArgs : Type :=
  ℚ × List Segment × List Segment × Option JsonValue × Option JsonValue × String

/-- `refineEnd` over its argument tuple. -/
def refineEndT (t : RefineEndArgs) : ℚ × Bool × String × Option String :=
  refineEnd t.1 t.2.1 t.2.2.1 t.2.2.2.1 t.2.2.2.2.1 t.2.2.2.2.2

/-- A payload dict carrying only the misspelled `occurance` key and a word. -/
def aliasParsed : List (String × JsonValue) :=
  [("occurance", JsonValue.str "last"), ("refined_start_word", JsonValue.str "the")]

/-- The segment used by the containment witness. -/
def c6seg : Segment :=
  { sequence_num := 1, start_time := 10, end_time := 12,
    text := "This episode is brought to you by" }

/-- A zero-duration segment, skipped by the candidate search. -/
def c8seg : Segment :=
  { sequence_num := 0, start_time := 5, end_time := 5, text := "hello" }

theorem filter_range_eq_nil {p : Nat → Bool} {n : Nat}
    (h : (List.range n).filter p = []) : ∀ j, j < n → p j = false := by
  intro j hj
  by_contra hp
  have hmem : j ∈ (List.range n).filter p := by
    rw [List.mem_filter]
    exact ⟨List.mem_range.mpr hj, by simpa using hp⟩
  rw [h] at hmem
  exact absurd hmem (List.not_mem_nil j)

theorem head_filter_range {p : Nat → Bool} :
    ∀ {n i : Nat}, ((List.range n).filter p).head? = some i →
      p i = true ∧ i < n ∧ ∀ j, j < i → p j = false := by
  intro n
  induction n with
  | zero => intro i h; simp at h
  | succ n ih =>
    intro i h
    rw [List.range_succ, List.filter_append] at h
    cases hc : (List.range n).filter p with
    | nil =>
      rw [hc, List.nil_append] at h
      by_cases hp : p n
      · rw [show List.filter p [n] = [n] by simp [hp]] at h
        simp only [List.head?_cons, Option.some.injEq] at h
        subst h
        exact ⟨hp, Nat.lt_succ_self _, fun j hj => filter_range_eq_nil hc j hj⟩
      · rw [show List.filter p [n] = [] by simp [hp]] at h
        simp at h
    | cons a as =>
      rw [hc] at h
      simp only [List.cons_append, List.head?_cons, Option.some.injEq] at h
      subst h
      obtain ⟨h1, h2, h3⟩ := ih (i := a) (by rw [hc]; rfl)
      exact ⟨h1, Nat.lt_succ_of_lt h2, h3⟩

theorem getLast_filter_range {p : Nat → Bool} :
    ∀ {n i : Nat}, ((List.range n).filter p).getLast? = some i →
      p i = true ∧ i < n ∧ ∀ j, i < j → j < n → p j = false := by
  intro n
  induction n with
  | zero => intro i h; simp at h
  | succ n ih =>
    intro i h
    rw [List.range_succ, List.filter_append] at h
    by_cases hp : p n
    · rw [show List.filter p [n] = [n] by simp [hp], List.getLast?_concat] at h
      obtain rfl : n = i := by simpa using h
      exact ⟨hp, Nat.lt_succ_self _, fun j hj1 hj2 => by omega⟩
    · rw [show List.filter p [n] = [] by simp [hp], List.append_nil] at h
      obtain ⟨h1, h2, h3⟩ := ih (i := i) h
      refine ⟨h1, Nat.lt_succ_of_lt h2, fun j hj1 hj2 => ?_⟩
      rcases Nat.lt_or_ge j n with hj | hj
      · exact h3 j hj1 hj
      · have : j = n := by omega
        subst this
        simpa using hp

theorem occursAt_bound {words target : List String} {i : Nat}
    (ht : target ≠ []) (h : occursAt words target i) :
    i + target.length ≤ words.length := by
  unfold occursAt at h
  have hlen := congrArg List.length h
  simp only [List.length_take, List.length_drop] at hlen
  have h1 : target.length ≤ words.length - i := min_eq_left_iff.mp hlen
  have h2 : 0 < target.length := List.length_pos.mpr ht
  omega

theorem findSubsequence_first_some {words target : List String} {i j : Nat}
    (h : findSubsequence words target "first" = some (i, j)) :
    target ≠ [] ∧ j = i + target.length - 1 ∧ i + target.length ≤ words.length ∧
      occursAt words target i ∧ ∀ i2, i2 < i → ¬occursAt words target i2 := by
  unfold findSubsequence at h
  split at h
  · simp at h
  · rw [if_neg (by decide : ¬("first" = "last"))] at h
    rw [List.head?_map] at h
    next hguard =>
    obtain ⟨i0, hh, heq⟩ := Option.map_eq_some'.mp h
    obtain ⟨rfl, rfl⟩ : i = i0 ∧ j = i0 + target.length - 1 :=
      ⟨(congrArg Prod.fst heq).symm, (congrArg Prod.snd heq).symm⟩
    obtain ⟨h1, h2, h3⟩ := head_filter_range hh
    have hocc : occursAt words target i := of_decide_eq_true h1
    have ht : target ≠ [] := by
      intro hnil
      exact hguard (Or.inl (by simp [hnil]))
    have hlen : ¬words.length < target.length := fun hlt => hguard (Or.inr hlt)
    refine ⟨ht, rfl, by omega, hocc, fun i2 hlt hocc2 => ?_⟩
    have hf := h3 i2 hlt
    rw [decide_eq_false_iff_not] at hf
    exact hf hocc2

theorem findSubsequence_last_some {words target : List String} {i j : Nat}
    (h : findSubsequence words target "last" = some (i, j)) :
    target ≠ [] ∧ j = i + target.length - 1 ∧ i + target.length ≤ words.length ∧
      occursAt words target i ∧ ∀ i2, i < i2 → ¬occursAt words target i2 := by
  unfold findSubsequence at h
  split at h
  · simp at h
  · rw [if_pos rfl, List.getLast?_map] at h
    next hguard =>
    obtain ⟨i0, hh, heq⟩ := Option.map_eq_some'.mp h
    obtain ⟨rfl, rfl⟩ : i = i0 ∧ j = i0 + target.length - 1 :=
      ⟨(congrArg Prod.fst heq).symm, (congrArg Prod.snd heq).symm⟩
    obtain ⟨h1, h2, h3⟩ := getLast_filter_range hh
    have hocc : occursAt words target i := of_decide_eq_true h1
    have ht : target ≠ [] := by
      intro hnil
      exact hguard (Or.inl (by simp [hnil]))
    have hlen : ¬words.length < target.length := fun hlt => hguard (Or.inr hlt)
    refine ⟨ht, rfl, by omega, hocc, fun i2 hlt hocc2 => ?_⟩
    have hbound := occursAt_bound ht hocc2
    have hlt2 : i2 < words.length - target.length + 1 := by
      have h2 : 0 < target.length := List.length_pos.mpr ht
      omega
    have hf := h3 i2 hlt hlt2
    rw [decide_eq_false_iff_not] at hf
    exact hf hocc2

theorem findSubsequence_none {words target : List String} {choose : String}
    (ht : target ≠ []) (h : findSubsequence words target choose = none) :
    ∀ i, ¬occursAt words target i := by
  intro i hocc
  have hbound := occursAt_bound ht hocc
  have htlen : 0 < target.length := List.length_pos.mpr ht
  unfold findSubsequence at h
  split at h
  · next hguard =>
    rcases hguard with hnil | hlt
    · exact ht (by simpa using hnil)
    · omega
  · next hguard =>
    have hi : i < words.length - target.length + 1 := by omega
    split at h
    · rw [List.getLast?_map, Option.map_eq_none'] at h
      rw [List.getLast?_eq_none_iff] at h
      have := filter_range_eq_nil h i hi
      rw [decide_eq_false_iff_not] at this
      exact this hocc
    · rw [List.head?_map, Option.map_eq_none'] at h
      rw [List.head?_eq_none_iff] at h
      have := filter_range_eq_nil h i hi
      rw [decide_eq_false_iff_not] at this
      exact this hocc

theorem matchStartRuns_some {words base : List String} :
    ∀ {k0 : Nat} {m : Nat × Nat}, matchStartRuns words base k0 = some m →
      ∃ k, 1 ≤ k ∧ k ≤ k0 ∧
        findSubsequence words (base.take k) "first" = some m ∧
        ∀ k2, k < k2 → k2 ≤ k0 →
          findSubsequence words (base.take k2) "first" = none := by
  intro k0
  induction k0 with
  | zero => intro m h; simp [matchStartRuns] at h
  | succ k ih =>
    intro m h
    unfold matchStartRuns at h
    cases hf : findSubsequence words (base.take (k + 1)) "first" with
    | some m2 =>
      rw [hf] at h
      obtain rfl : m2 = m := by simpa using h
      exact ⟨k + 1, by omega, le_refl _, hf, fun k2 h1 h2 => by omega⟩
    | none =>
      rw [hf] at h
      obtain ⟨k1, hk1, hk2, hk3, hk4⟩ := ih h
      refine ⟨k1, hk1, by omega, hk3, fun k2 hgt hle => ?_⟩
      rcases Nat.lt_or_ge k2 (k + 1) with hk | hk
      · exact hk4 k2 hgt (by omega)
      · have : k2 = k + 1 := by omega
        subst this
        exact hf

theorem matchEndRuns_some {words base : List String} :
    ∀ {k0 : Nat} {m : Nat × Nat}, matchEndRuns words base k0 = some m →
      ∃ k, 1 ≤ k ∧ k ≤ k0 ∧
        findSubsequence words (takeLast base k) "last" = some m ∧
        ∀ k2, k < k2 → k2 ≤ k0 →
          findSubsequence words (takeLast base k2) "last" = none := by
  intro k0
  induction k0 with
  | zero => intro m h; simp [matchEndRuns] at h
  | succ k ih =>
    intro m h
    unfold matchEndRuns at h
    cases hf : findSubsequence words (takeLast base (k + 1)) "last" with
    | some m2 =>
      rw [hf] at h
      obtain rfl : m2 = m := by simpa using h
      exact ⟨k + 1, by omega, le_refl _, hf, fun k2 h1 h2 => by omega⟩
    | none =>
      rw [hf] at h
      obtain ⟨k1, hk1, hk2, hk3, hk4⟩ := ih h
      refine ⟨k1, hk1, by omega, hk3, fun k2 hgt hle => ?_⟩
      rcases Nat.lt_or_ge k2 (k + 1) with hk | hk
      · exact hk4 k2 hgt (by omega)
      · have : k2 = k + 1 := by omega
        subst this
        exact hf

theorem takeLast_length {α : Type} (l : List α) (n : Nat) :
    (takeLast l n).length = min n l.length := by
  simp [takeLast, List.length_drop]
  omega

theorem takeLast_takeLast {α : Type} (l : List α) (n : Nat) :
    takeLast (takeLast l n) n = takeLast l n := by
  simp [takeLast, List.drop_drop]
  congr 1
  simp [List.length_drop]
  omega

theorem takeLast_eq_nil_iff {α : Type} (l : List α) (n : Nat) (hn : 0 < n) :
    takeLast l n = [] ↔ l = [] := by
  constructor
  · intro h
    have := congrArg List.length h
    rw [takeLast_length] at this
    simp at this
    rcases this with h1 | h1
    · omega
    · exact h1
  · intro h
    subst h
    simp [takeLast]

/-- C5: for every payload and every segment list, the time returned by
`_refine_start` is at least `ad_start - 30` seconds, and the time returned by
`_refine_end` is at most `ad_end + 15` seconds. -/
theorem boundary_clamping (ad_start ad_end : ℚ) (all_segments ctx : List Segment)
    (sseq sph sw so swi eseq eph : Option JsonValue) (sr er : String) :
    ad_start - 30 ≤ (refineStart ad_start all_segments ctx sseq sph sw so swi sr).1 ∧
    (refineEnd ad_end all_segments ctx eseq eph er).1 ≤ ad_end + 15 := by
  have hcs : ∀ e o : ℚ, o - 30 ≤ constrainStart e o := fun e o =>
    le_max_right e (o - 30)
  have hce : ∀ e o : ℚ, constrainEnd e o ≤ o + 15 := fun e o =>
    min_le_right e (o + 15)
  constructor
  · unfold refineStart
    split
    · split
      · simp only
        linarith
      · simpa using hcs _ _
    · split
      · simpa using hcs _ _
      · split
        · simpa using hcs _ _
        · simp only
          linarith
  · unfold refineEnd
    split
    · split
      · simpa using hce _ _
      · simp only
        linarith
    · split
      · simp only
        linarith
      · simpa using hce _ _

/-- C6: whenever a phrase match is found at token indices `[i, j]` in a
segment with positive duration and a non-empty token list, the estimated time
(`segment_start + i * seconds_per_word` for the start direction,
`segment_start + (j+1) * seconds_per_word` clamped to `segment_end` for the
end direction, with `seconds_per_word = duration / word_count`) lies within
`[segment.start_time, segment.end_time]`. -/
theorem phrase_estimate_containment (seg : Segment) (phrase_tokens : List String)
    (direction : String) (i j : Nat)
    (hdur : seg.start_time < seg.end_time)
    (hwords : segWords seg ≠ [])
    (hmatch : findPhraseMatch (segWords seg) phrase_tokens direction 4 = some (i, j)) :
    seg.start_time ≤ phraseEstimate seg direction i j (segWords seg).length ∧
    phraseEstimate seg direction i j (segWords seg).length ≤ seg.end_time := by
  have hd : (0 : ℚ) ≤ max 0 (seg.end_time - seg.start_time) := le_max_left _ _
  have hw : (0 : ℚ) ≤ ((segWords seg).length : ℚ) := Nat.cast_nonneg _
  have hspw : (0 : ℚ) ≤
      max 0 (seg.end_time - seg.start_time) / ((segWords seg).length : ℚ) :=
    div_nonneg hd hw
  unfold phraseEstimate
  constructor
  · split
    · exact le_min (le_add_of_nonneg_right (mul_nonneg (Nat.cast_nonneg _) hspw))
        (le_of_lt hdur)
    · exact le_min
        (le_add_of_nonneg_right (mul_nonneg (by positivity) hspw))
        (le_of_lt hdur)
  · split
    · exact min_le_right _ _
    · exact min_le_right _ _

/-- C9: for fixed segment lists and a fixed structured payload,
`_refine_start` and `_refine_end` are deterministic — any two calls with
identical inputs return identical `(time, changed, reason, error)` tuples.
(The source functions read nothing but their arguments, so the embedding is a
pure function and determinism is congruence.) -/
theorem refine_start_end_deterministic (x y : RefineStartArgs) (u v : RefineEndArgs)
    (hxy : x = y) (huv : u = v) :
    refineStartT x = refineStartT y ∧ refineEndT u = refineEndT v :=
  ⟨congrArg refineStartT hxy, congrArg refineEndT huv⟩

theorem refine_start_end_deterministic_witness :
    ((((10 : ℚ), [], [], none, none, none, none, none, "") : RefineStartArgs) =
      (((10 : ℚ), [], [], none, none, none, none, none, "") : RefineStartArgs)) ∧
    refineStartT (((10 : ℚ), [], [], none, none, none, none, none, "") : RefineStartArgs) =
      refineStartT (((10 : ℚ), [], [], none, none, none, none, none, "") : RefineStartArgs) ∧
    refineEndT (((12 : ℚ), [], [], none, none, "") : RefineEndArgs) =
      refineEndT (((12 : ℚ), [], [], none, none, "") : RefineEndArgs) := by
  refine ⟨rfl, ?_⟩
  exact refine_start_end_deterministic _ _ _ _ rfl rfl

/-- C10: when a fully parsed payload object lacks the key `occurrence` (or
maps it to `null`, which `dict.get` renders as the same Python `None`),
`_extract_payload` falls back to the misspelled key `occurance` and its value
becomes the start-occurrence hint that `_refine_start` hands down to
word-index resolution. -/
theorem occurance_alias (parsed : List (String × JsonValue))
    (h : pyGet parsed "occurrence" = none) :
    (extractPayload parsed).start_occurrence = pyGet parsed "occurance" ∧
    (∀ words word wi,
      resolveWordIndex words word ((extractPayload parsed).start_occurrence) wi =
        resolveWordIndex words word (pyGet parsed "occurance") wi) ∧
    (∀ (ad : ℚ) (allSegs ctx : List Segment),
      refineStart ad allSegs ctx (extractPayload parsed).start_segment_seq
          (extractPayload parsed).start_phrase (extractPayload parsed).start_word
          ((extractPayload parsed).start_occurrence)
          (extractPayload parsed).start_word_index
          (extractPayload parsed).start_reason =
        refineStart ad allSegs ctx (extractPayload parsed).start_segment_seq
          (extractPayload parsed).start_phrase (extractPayload parsed).start_word
          (pyGet parsed "occurance")
          (extractPayload parsed).start_word_index
          (extractPayload parsed).start_reason) := by
  have halias : (extractPayload parsed).start_occurrence = pyGet parsed "occurance" := by
    simp [extractPayload, h]
  exact ⟨halias, fun words word wi => by rw [halias], fun ad a c => by rw [halias]⟩

theorem occurance_alias_witness :
    pyGet aliasParsed "occurrence" = none ∧
    (extractPayload aliasParsed).start_occurrence = pyGet aliasParsed "occurance" ∧
    resolveWordIndex ["the", "cat", "the"] (some (JsonValue.str "the"))
      ((extractPayload aliasParsed).start_occurrence) none = 2 := by
  refine ⟨rfl, (occurance_alias aliasParsed rfl).1, by with_unfolding_all rfl⟩

/-- C7: parsing the truncated text
`{"refined_start_segment_seq": 288, "refined_start_phrase` goes through the
truncation repair (drop before the first brace, strip fences, strip trailing
commas, drop the dangling key, close the braces) and yields a payload whose
`refined_start_segment_seq` equals 288 and which has no
`refined_start_phrase` key. -/
theorem truncation_repair_parses :
    repairTruncatedJson c7text = some "\x7b\"refined_start_segment_seq\": 288\x7d" ∧
    parseJson c7text = some [("refined_start_segment_seq", JsonValue.num 288)] ∧
    dictGet [("refined_start_segment_seq", JsonValue.num 288)]
      "refined_start_segment_seq" = some (JsonValue.num 288) ∧
    dictGet [("refined_start_segment_seq", JsonValue.num 288)]
      "refined_start_phrase" = none := by
  refine ⟨rfl, by with_unfolding_all rfl, rfl, rfl⟩

set_option maxRecDepth 40000 in
theorem phrase_estimate_containment_witness :
    (c6seg.start_time < c6seg.end_time ∧ segWords c6seg ≠ [] ∧
      findPhraseMatch (segWords c6seg) ["brought"] "start" 4 = some (3, 3)) ∧
    c6seg.start_time ≤ phraseEstimate c6seg "start" 3 3 (segWords c6seg).length ∧
    phraseEstimate c6seg "start" 3 3 (segWords c6seg).length ≤ c6seg.end_time := by
  refine ⟨⟨by decide, by decide, by with_unfolding_all rfl⟩, ?_⟩
  exact phrase_estimate_containment c6seg ["brought"] "start" 3 3 (by decide)
    (by decide) (by with_unfolding_all rfl)

set_option maxRecDepth 100000 in
/-- C2: the spec says the terminal lifecycle status recorded after a
successful parse and a valid guardrail check is `success` exactly when both
estimations succeeded with no partial errors, and `success_heuristic` when a
partial error occurred and neither side changed.  The code computes that very
status with `_result_status` and records it, but then unconditionally issues
one more update with status `success` (and a cleared error message) before
returning, so the status finally recorded is always `success`.  At the input
below (a parsed payload whose start phrase occurs nowhere, so the start side
reports `start_phrase_not_found` and neither side changes), the penultimate
write carries `success_heuristic` and the final write overwrites it with
`success`. -/
theorem terminal_status_overwritten :
    resultStatus false false ["start_phrase_not_found"] = "success_heuristic" ∧
    refineUpdates c2outcome 10 12 c2segs (some 1) (some 1) =
      [{ status := "received_response", error_message := none },
       { status := "success_heuristic", error_message := some "start_phrase_not_found" },
       { status := "success", error_message := none }] ∧
    (refineUpdates c2outcome 10 12 c2segs (some 1) (some 1)).getLast? =
      some { status := "success", error_message := none } := by
  refine ⟨by decide, by with_unfolding_all decide, by with_unfolding_all decide⟩

/-- C3: when the model response yields no parseable payload, `refine` returns
the original window with `start_adjustment_reason = "heuristic_fallback"` and
`end_adjustment_reason = "unchanged"` (recording the parse failure), and the
parse failure is classified as `"length"` exactly when the finish reason
equals `"length"` case-insensitively, and as `"format"` for every other
finish reason including absence. -/
theorem parse_failure_fallback (content : String) (fr : Option String)
    (ad_start ad_end : ℚ) (segs : List Segment) (f l : Option Int)
    (h : parseJson content = none) :
    refineResult (ModelOutcome.ok ⟨content, fr⟩) ad_start ad_end segs f l =
      fallback ad_start ad_end ∧
    refineUpdates (ModelOutcome.ok ⟨content, fr⟩) ad_start ad_end segs f l =
      [{ status := "received_response", error_message := none },
       { status := "success_heuristic"
         error_message := some ("parse_failed:" ++ parseFailureReason fr) }] ∧
    (parseFailureReason fr = "length" ↔ strLower (fr.getD "") = "length") ∧
    parseFailureReason none = "format" ∧
    (∀ fr2, parseFailureReason fr2 = "length" ∨ parseFailureReason fr2 = "format") := by
  refine ⟨?_, ?_, ?_, by decide, ?_⟩
  · simp [refineResult, refinePair, h]
  · simp [refineUpdates, refinePair, h]
  · unfold parseFailureReason
    split
    · next hc => simpa using hc
    · next hc =>
      constructor
      · intro hx
        exact absurd hx (by decide)
      · intro hx
        exact absurd hx hc
  · intro fr2
    unfold parseFailureReason
    split
    · exact Or.inl rfl
    · exact Or.inr rfl

theorem parse_failure_fallback_witness :
    parseJson "not valid json" = none ∧
    refineResult (ModelOutcome.ok ⟨"not valid json", some "length"⟩) 10 12
      c2segs (some 1) (some 1) = fallback 10 12 ∧
    parseFailureReason (some "length") = "length" := by
  refine ⟨rfl, ?_, by decide⟩
  exact (parse_failure_fallback "not valid json" (some "length") 10 12 c2segs
    (some 1) (some 1) rfl).1

set_option maxRecDepth 100000 in
/-- C4: for every non-empty segment list (with integer sequence numbers and
both bounds present), the primary context selection returns exactly the
segments whose sequence number lies in
`[max(min_seq, first_seq - 2), min(max_seq, last_seq + 2)]`; in particular,
for segments numbered `0..99` with `first_seq = 20` and `last_seq = 80` it
returns exactly the segments numbered `18..82` inclusive. -/
theorem context_window_selection (segs : List Segment) (f l : Int) (h : segs ≠ []) :
    (∀ s, s ∈ contextBySeqWindow segs (some f) (some l) ↔
      s ∈ segs ∧ max (intListMin (seqValues segs)) (f - 2) ≤ s.sequence_num ∧
        s.sequence_num ≤ min (intListMax (seqValues segs)) (l + 2)) ∧
    (contextBySeqWindow segs100 (some 20) (some 80)).map (·.sequence_num) =
      (List.range 65).map (fun k => (k : Int) + 18) := by
  constructor
  · intro s
    have hne : segs.isEmpty = false := by
      cases segs with
      | nil => exact absurd rfl h
      | cons a as => rfl
    simp [contextBySeqWindow, hne, List.mem_filter, decide_eq_true_eq]
  · with_unfolding_all decide

theorem context_window_selection_witness :
    segs100 ≠ [] ∧
    (contextBySeqWindow segs100 (some 20) (some 80)).map (·.sequence_num) =
      (List.range 65).map (fun k => (k : Int) + 18) := by
  refine ⟨by decide, ?_⟩
  exact (context_window_selection segs100 20 80 (by decide)).2

/-- C1: for every call to `refine` with `ad_end > ad_start`, the returned
`WordBoundaryRefinement` satisfies `refined_end > refined_start` and is either
the refined record built from the parsed payload or the original
`(ad_start, ad_end)` verbatim (the fallback); the body is total, so no
exception reaches the caller — the transport raising is the `err` case and
resolves to the fallback. -/
theorem refine_window_invariant (outcome : ModelOutcome) (ad_start ad_end : ℚ)
    (all_segments : List Segment) (f l : Option Int) (h : ad_start < ad_end) :
    (refineResult outcome ad_start ad_end all_segments f l).refined_start <
      (refineResult outcome ad_start ad_end all_segments f l).refined_end ∧
    (refineResult outcome ad_start ad_end all_segments f l =
        fallback ad_start ad_end ∨
      ∃ resp parsed, outcome = ModelOutcome.ok resp ∧
        parseJson resp.content = some parsed ∧
        refineResult outcome ad_start ad_end all_segments f l =
          refinedRecord ad_start ad_end all_segments
            (getContext ad_start ad_end all_segments f l) parsed) := by
  unfold refineResult refinePair
  cases outcome with
  | err msg => exact ⟨h, Or.inl (by trivial)⟩
  | ok resp =>
    cases hp : parseJson resp.content with
    | none =>
      simp only [hp]
      exact ⟨h, Or.inl (by trivial)⟩
    | some parsed =>
      simp only [hp]
      split
      · exact ⟨h, Or.inl (by trivial)⟩
      · next hg =>
        refine ⟨not_le.mp hg, Or.inr ⟨resp, parsed, rfl, hp, ?_⟩⟩
        unfold refinedRecord
        rfl

theorem refine_window_invariant_witness :
    (10 : ℚ) < 12 ∧
    (refineResult c2outcome 10 12 c2segs (some 1) (some 1)).refined_start <
      (refineResult c2outcome 10 12 c2segs (some 1) (some 1)).refined_end := by
  refine ⟨by norm_num, ?_⟩
  exact (refine_window_invariant c2outcome 10 12 c2segs (some 1) (some 1)
    (by norm_num)).1

theorem take4_isEmpty (p : List String) : (p.take 4).isEmpty = p.isEmpty := by
  cases p <;> rfl

theorem takeLast4_isEmpty (p : List String) : (takeLast p 4).isEmpty = p.isEmpty := by
  cases p with
  | nil => rfl
  | cons a l =>
    have h1 : takeLast (a :: l) 4 ≠ [] := by
      intro hc
      rw [takeLast_eq_nil_iff (a :: l) 4 (by norm_num)] at hc
      exact List.cons_ne_nil a l hc
    cases hc : takeLast (a :: l) 4 with
    | nil => exact absurd hc h1
    | cons b bs => rfl

/-- C8: phrase matching uses at most the first four normalized lower-cased
phrase tokens for the start direction (the last four for the end direction),
tries contiguous sub-runs of length `k` from that cap down to 1 preferring the
longest, returns the leftmost occurrence for start and the rightmost for end,
and the candidate search skips any segment whose duration is not positive or
whose token list is empty. -/
theorem phrase_matching_algorithm :
    (∀ words p, findPhraseMatch words p "start" 4 =
        findPhraseMatch words (p.take 4) "start" 4) ∧
    (∀ words p, findPhraseMatch words p "end" 4 =
        findPhraseMatch words (takeLast p 4) "end" 4) ∧
    (∀ words p i j, findPhraseMatch words p "start" 4 = some (i, j) →
      ∃ k, 1 ≤ k ∧ k ≤ (p.take 4).length ∧ j = i + k - 1 ∧
        occursAt words ((p.take 4).take k) i ∧
        (∀ i2, i2 < i → ¬occursAt words ((p.take 4).take k) i2) ∧
        (∀ k2, k < k2 → k2 ≤ (p.take 4).length →
          ∀ i2, ¬occursAt words ((p.take 4).take k2) i2)) ∧
    (∀ words p i j, findPhraseMatch words p "end" 4 = some (i, j) →
      ∃ k, 1 ≤ k ∧ k ≤ (takeLast p 4).length ∧ j = i + k - 1 ∧
        occursAt words (takeLast (takeLast p 4) k) i ∧
        (∀ i2, i < i2 → ¬occursAt words (takeLast (takeLast p 4) k) i2) ∧
        (∀ k2, k < k2 → k2 ≤ (takeLast p 4).length →
          ∀ i2, ¬occursAt words (takeLast (takeLast p 4) k2) i2)) ∧
    (∀ pt dir seg rest,
      (segWords seg = [] ∨ max 0 (seg.end_time - seg.start_time) ≤ 0) →
      searchCandidates pt dir (seg :: rest) = searchCandidates pt dir rest) := by
  refine ⟨?_, ?_, ?_, ?_, ?_⟩
  · intro words p
    unfold findPhraseMatch
    rw [take4_isEmpty, List.take_take]
    simp
  · intro words p
    unfold findPhraseMatch
    have hne : ¬("end" = "start") := by decide
    rw [takeLast4_isEmpty, if_neg hne, if_neg hne, takeLast_takeLast]
  · intro words p i j hm
    unfold findPhraseMatch at hm
    split at hm
    · simp at hm
    · rw [if_pos rfl] at hm
      obtain ⟨k, hk1, hk2, hk3, hk4⟩ := matchStartRuns_some hm
      obtain ⟨ht, hj, hb, hocc, hmin⟩ := findSubsequence_first_some hk3
      have hlen : ((p.take 4).take k).length = k := by
        rw [List.length_take]
        exact min_eq_left hk2
      refine ⟨k, hk1, hk2, ?_, hocc, hmin, ?_⟩
      · rw [hj, hlen]
      · intro k2 hka hkb i2
        have hnone := hk4 k2 hka hkb
        have htne : (p.take 4).take k2 ≠ [] := by
          intro hc
          have hlc := congrArg List.length hc
          rw [List.length_take] at hlc
          simp only [List.length_nil] at hlc
          rcases Nat.min_eq_zero_iff.mp hlc with h0 | h0 <;> omega
        exact findSubsequence_none htne hnone i2
  · intro words p i j hm
    unfold findPhraseMatch at hm
    split at hm
    · simp at hm
    · rw [if_neg (by decide : ¬("end" = "start"))] at hm
      next hguard =>
      obtain ⟨k, hk1, hk2, hk3, hk4⟩ := matchEndRuns_some hm
      obtain ⟨ht, hj, hb, hocc, hmax⟩ := findSubsequence_last_some hk3
      have hlen : (takeLast (takeLast p 4) k).length = k := by
        rw [takeLast_length]
        exact min_eq_left hk2
      refine ⟨k, hk1, hk2, ?_, hocc, hmax, ?_⟩
      · rw [hj, hlen]
      · intro k2 hka hkb i2
        have hnone := hk4 k2 hka hkb
        have hpne : p ≠ [] := by
          intro hc
          exact hguard (Or.inr (by simp [hc]))
        have hbne : takeLast p 4 ≠ [] := by
          intro hc
          rw [takeLast_eq_nil_iff p 4 (by norm_num)] at hc
          exact hpne hc
        have htne : takeLast (takeLast p 4) k2 ≠ [] := by
          intro hc
          rw [takeLast_eq_nil_iff (takeLast p 4) k2 (by omega)] at hc
          exact hbne hc
        exact findSubsequence_none htne hnone i2
  · intro pt dir seg rest hbad
    have hcond : (segWords seg).isEmpty = true ∨
        max 0 (seg.end_time - seg.start_time) ≤ 0 := by
      rcases hbad with hb | hb
      · left
        rw [hb]
        rfl
      · right
        exact hb
    simp only [searchCandidates]
    rw [if_pos hcond]

theorem phrase_matching_algorithm_witness :
    (segWords c8seg = [] ∨ max 0 (c8seg.end_time - c8seg.start_time) ≤ 0) ∧
    searchCandidates ["hello"] "start" (c8seg :: []) =
      searchCandidates ["hello"] "start" [] := by
  have hz : max (0 : ℚ) (c8seg.end_time - c8seg.start_time) ≤ 0 := by
    simp [c8seg]
  refine ⟨Or.inr hz, ?_⟩
  exact phrase_matching_algorithm.2.2.2.2 ["hello"] "start" c8seg [] (Or.inr hz)
